/-
Verification of the sortmail address-to-mailbox resolution engine
(src/sortmail/src/main.rs) against its natural-language specification.

Shallow embedding notes:

* Rust strings are modelled as lists of Unicode scalar values (`List Nat`);
  `chars` converts a Lean string literal to this representation.
* `str::trim` / `to_lowercase` are modelled on the ASCII fragment exercised
  by the program (ASCII whitespace, ASCII letter case).  This matches the
  Rust behaviour on every input appearing in the claims.
* The `regex` crate is external to the repository, so pattern compilation
  and matching are modelled by an abstract `RegexEngine` parameter: `valid`
  says whether `Regex::new` succeeds on a pattern source and ` isMatch`
  whether the compiled pattern matches somewhere inside an address.
  `toyEngine` below instantiates it faithfully for literal
  (metacharacter-free) patterns, on which the real crate performs plain
  substring search, and for the single invalid pattern "(".
* `AddressMap::from_file` iterates a `HashMap` (`config_rc`); Rust's
  `HashMap` iteration order is unspecified (per-process random seed), so the
  model takes the iteration order as an explicit argument: a list of
  (mailbox name, mailbox config) pairs in the order the `HashMap` yields
  them, an arbitrary permutation of the order of declaration in the TOML
  file.  Both the exact map and the pattern list are built from one
  iteration order, matching a single run over one unmutated map.
* The `HashMap` collected from the `(address, name)` pairs inserts in
  iteration order with silent overwrite, so its `get` returns the value of
  the last pair carrying the key; `exactLookup` models exactly that on the
  ordered pair list.
-/

import Mathlib

namespace Sortmail

/-- A Rust string, as its list of Unicode scalar values. -/
abbrev Str := List Nat

/-- Convert a Lean string literal to the model representation. -/
def chars (s : String) : Str := s.data.map Char.toNat

/-- ASCII whitespace, the fragment of `char::is_whitespace` relevant here. -/
def isWs (c : Nat) : Bool := c = 32 || c = 9 || c = 10 || c = 13

/-- One character of `str::to_lowercase`, ASCII fragment: 'A'..'Z' ↦ +32. -/
def lowerChar (c : Nat) : Nat := if 65 ≤ c ∧ c ≤ 90 then c + 32 else c

/-- Model of `str::to_lowercase`. -/
def toLower (s : Str) : Str := s.map lowerChar

/-- Model of `str::trim`: drop whitespace from both ends. -/
def trim (s : Str) : Str :=
  ((s.dropWhile isWs).reverse.dropWhile isWs).reverse

/-- Model of `str::split` at a single separator character. -/
def splitOn (sep : Nat) : Str → List Str
  | [] => [[]]
  | c :: rest =>
    if c = sep then [] :: splitOn sep rest
    else
      match splitOn sep rest with
      | [] => [[c]]
      | h :: t => (c :: h) :: t

/-- Model of `deserialize_email_addresses_separated_by_newlines`: split the blob on
newlines, trim each line, lowercase it, and keep only nonempty results. -/
def deserialize_email_addresses_separated_by_newlines (s : Str) : List Str :=
  ((splitOn 10 s).map (fun addr => toLower (trim addr))).filter
    (fun addr => !addr.isEmpty)

/-- The `ConfigMailbox` record after serde deserialization: the already-normalized
address and pattern source lists (absent fields default to `[]`). -/
structure ConfigMailbox where
  addresses : List Str
  re_addresses : List Str
deriving DecidableEq

/-- A mailbox section as written in the TOML file: the two raw blobs. -/
structure RawMailbox where
  addressesBlob : Str
  reAddressesBlob : Str

/-- Deserializing one raw mailbox section. -/
def parseMailbox (r : RawMailbox) : ConfigMailbox :=
  { addresses := deserialize_email_addresses_separated_by_newlines r.addressesBlob
    re_addresses := deserialize_email_addresses_separated_by_newlines r.reAddressesBlob }

/-- Abstract model of the external `regex` crate: whether `Regex::new`
succeeds on a pattern source, and whether the compiled pattern matches
somewhere within a haystack. -/
structure RegexEngine where
  valid : Str → Bool
  isMatch : Str → Str → Bool

/-- Whether `needle` occurs contiguously inside `hay`. -/
def isSubstr (needle hay : Str) : Bool :=
  (List.range (hay.length + 1)).any
    (fun i => List.isPrefixOf needle (hay.drop i))

/-- A concrete engine agreeing with the `regex` crate on literal
(metacharacter-free) patterns — where `is_match` is substring search — and
on the invalid pattern "(" (an unclosed group fails to compile). -/
def toyEngine : RegexEngine where
  valid p := !p.contains 40
  isMatch p a := isSubstr p a

/-- The compiled `AddressMap`.  `exact_address_to_mailbox_name` keeps the
`(address, mailbox)` pairs in `HashMap` insertion order (lookup below is
last-write-wins, matching `collect` into a `HashMap`);
`address_regex_to_mailbox_name` keeps (pattern source, mailbox) pairs, the
pattern source standing for the compiled `Regex` that carries it. -/
structure AddressMap where
  exact_address_to_mailbox_name : List (Str × Str)
  address_regex_to_mailbox_name : List (Str × Str)
deriving DecidableEq

instance {ε α : Type} [DecidableEq ε] [DecidableEq α] : DecidableEq (Except ε α) := fun x y =>
  match x, y with
  | .ok a, .ok b =>
    if h : a = b then .isTrue (by rw [h]) else .isFalse (fun he => h (by injection he))
  | .error a, .error b =>
    if h : a = b then .isTrue (by rw [h]) else .isFalse (fun he => h (by injection he))
  | .ok _, .error _ => .isFalse (fun he => by injection he)
  | .error _, .ok _ => .isFalse (fun he => by injection he)

/-- Model of `HashMap::get` on a map collected from an ordered pair list: the value
of the last pair with the key (later insertions silently overwrite). -/
def exactLookup (pairs : List (Str × Str)) (address : Str) : Option Str :=
  (pairs.reverse.find? (fun pr => pr.1 = address)).map (fun pr => pr.2)

/-- The `anyhow` context attached to a pattern that fails to compile:
`format!("Error parsing regular expression {addr_re}")`. -/
def regexErrMsg (p : Str) : Str := chars "Error parsing regular expression " ++ p

/-- The flattened `(address, mailbox name)` pairs, in `HashMap` iteration
order (`flat_map` over `config_rc`). -/
def exactPairs (cfg : List (Str × ConfigMailbox)) : List (Str × Str) :=
  cfg.flatMap (fun e => e.2.addresses.map (fun addr => (addr, e.1)))

/-- The flattened `(pattern source, mailbox name)` pairs, in `HashMap`
iteration order. -/
def patternPairs (cfg : List (Str × ConfigMailbox)) : List (Str × Str) :=
  cfg.flatMap (fun e => e.2.re_addresses.map (fun p => (p, e.1)))

/-- Model of `collect::<Result<Vec<_>, _>>` over the per-pattern compilation
results: the first failing pattern (in iteration order) aborts with its
context message; otherwise all pairs are kept in order. -/
def collectPatterns (E : RegexEngine) : List (Str × Str) → Except Str (List (Str × Str))
  | [] => .ok []
  | pr :: rest =>
    if E.valid pr.1 then
      match collectPatterns E rest with
      | .ok l => .ok (pr :: l)
      | .error e => .error e
    else .error (regexErrMsg pr.1)

/-- Model of `AddressMap::from_file`, after file reading and TOML decoding (external
collaborators): build the exact map and the compiled pattern list from the
configuration in `HashMap` iteration order `cfg`. -/
def from_file (E : RegexEngine) (cfg : List (Str × ConfigMailbox)) :
    Except Str AddressMap :=
  match collectPatterns E (patternPairs cfg) with
  | .error e => .error e
  | .ok pats =>
    .ok { exact_address_to_mailbox_name := exactPairs cfg
          address_regex_to_mailbox_name := pats }

/-- Model of `AddressMap::mailbox_name_for_address`: exact lookup first, otherwise
the first pattern in the list that matches the address. -/
def mailbox_name_for_address (E : RegexEngine) (m : AddressMap)
    (address : Str) : Option Str :=
  match exactLookup m.exact_address_to_mailbox_name address with
  | some mailbox_name => some mailbox_name
  | none =>
    (m.address_regex_to_mailbox_name.find?
      (fun pr => E.isMatch pr.1 address)).map (fun pr => pr.2)

/-- Model of `get_normalized_original_recipient_email_address`: fail if the
recipient environment variable is absent, otherwise lowercase its value
(the code applies `to_lowercase` only — no trim). -/
def get_normalized_original_recipient_email_address (envVal : Option Str) :
    Except Str Str :=
  match envVal with
  | none => .error (chars "Missing environment variable for recipient email address")
  | some v => .ok (toLower v)

/-- Model of `PathBuf::push` with a relative segment (every segment pushed by the
program starts with '.', never with a path separator): append a separator
(47 = '/') and the segment. -/
def pushSegment (root seg : Str) : Str := root ++ 47 :: seg

/-- The delivery directory chosen by `sort_message_from_stdin`: when
resolution names a mailbox, push the single segment `format!(".{name}")`
onto the root maildir, otherwise use the root unchanged. -/
def deliveryDir (root : Str) (resolved : Option Str) : Str :=
  match resolved with
  | some mailbox_name => pushSegment root (46 :: mailbox_name)
  | none => root

/-- The components of a path: the nonempty parts between separators. -/
def pathComponents (p : Str) : List Str :=
  (splitOn 47 p).filter (fun comp => !comp.isEmpty)

/-- Observable effects of one `sort_message_from_stdin` run: whether stdin
was read, and the directory the message was stored into (`none` when no
store write happened — error exit or dry run). -/
structure Effects where
  readStdin : Bool
  storedTo : Option Str
deriving DecidableEq

/-- Model of `sort_message_from_stdin`, with the external world passed explicitly:
`homeEnv`/`recipEnv` are the values of the HOME and recipient environment
variables, `cfgResult` is the outcome of reading and TOML-decoding the
config file (the external part of `AddressMap::from_file`), `stdinBytes`
the message on stdin, and `storeOk` whether the maildir store write
succeeds.  Returns the result together with the effects performed, in the
statement order of the Rust function. -/
def sort_message_from_stdin (E : RegexEngine) (homeEnv overrideMaildir recipEnv : Option Str)
    (dryRun : Bool) (cfgResult : Except Str (List (Str × ConfigMailbox)))
    (stdinBytes : List Nat) (storeOk : Bool) : Except Str Unit × Effects :=
  let rootResult : Except Str Str :=
    match overrideMaildir with
    | some p => .ok p
    | none =>
      match homeEnv with
      | some h => .ok (pushSegment h (chars "Maildir"))
      | none => .error (chars "Unable to find HOME environment variable")
  match rootResult with
  | .error e => (.error e, ⟨false, none⟩)
  | .ok root =>
    match cfgResult with
    | .error e => (.error e, ⟨false, none⟩)
    | .ok cfg =>
      match from_file E cfg with
      | .error e => (.error e, ⟨false, none⟩)
      | .ok mappings =>
        match get_normalized_original_recipient_email_address recipEnv with
        | .error e => (.error e, ⟨false, none⟩)
        | .ok recipient =>
          let maildir := deliveryDir root (mailbox_name_for_address E mappings recipient)
          if stdinBytes.isEmpty then
            (.error (chars "Empty incoming message data"), ⟨true, none⟩)
          else if dryRun then (.ok (), ⟨true, none⟩)
          else if storeOk then (.ok (), ⟨true, some maildir⟩)
          else (.error (chars "Error saving message to Maildir"), ⟨true, some maildir⟩)

/-- Modelled from the spec: resolution as §4.2 describes it, with the
pattern sequence in declaration order — exact lookup first, then the first
declared matching pattern.  Used only to compare the code's behaviour
against the spec's declaration-order semantics. -/
def specResolveDeclOrder (E : RegexEngine) (decl : List (Str × ConfigMailbox))
    (address : Str) : Option Str :=
  match exactLookup (exactPairs decl) address with
  | some mailbox_name => some mailbox_name
  | none =>
    ((patternPairs decl).find? (fun pr => E.isMatch pr.1 address)).map (fun pr => pr.2)

/-! ### Concrete fixtures used in witnesses and counterexamples -/

/-- A mailbox "A" with the literal pattern `a@`. -/
def mbA : Str × ConfigMailbox := (chars "A", ⟨[], [chars "a@"]⟩)

/-- A mailbox "B" with the literal pattern `@example.com`; both `mbA`'s and
`mbB`'s patterns match the address `a@example.com`. -/
def mbB : Str × ConfigMailbox := (chars "B", ⟨[], [chars "@example.com"]⟩)

/-- A mailbox "Work" declaring the exact address `x@y`. -/
def mbWork : Str × ConfigMailbox := (chars "Work", ⟨[chars "x@y"], []⟩)

/-- A mailbox "Personal" declaring the same exact address `x@y`. -/
def mbPersonal : Str × ConfigMailbox := (chars "Personal", ⟨[chars "x@y"], []⟩)

/-- A raw mailbox section whose blobs carry surrounding whitespace, mixed
case and blank lines. -/
def rawWork : Str × RawMailbox := (chars "Work", ⟨chars "  Boss@Co.com \n\n", chars " ^x@ \n"⟩)

/-- A mailbox "Work" declaring the invalid pattern `(`. -/
def mbBadPattern : Str × ConfigMailbox := (chars "Work", ⟨[], [chars "("]⟩)

/-! ### Lemmas about the string-normalization model -/

theorem lowerChar_idem (c : Nat) : lowerChar (lowerChar c) = lowerChar c := by
  by_cases h : 65 ≤ c ∧ c ≤ 90
  · simp only [lowerChar, if_pos h]
    rw [if_neg (by omega)]
  · simp only [lowerChar, if_neg h]

theorem isWs_lowerChar (c : Nat) : isWs (lowerChar c) = isWs c := by
  by_cases h : 65 ≤ c ∧ c ≤ 90
  · have h1 : isWs (c + 32) = false := by simp only [isWs]; simp; omega
    have h2 : isWs c = false := by simp only [isWs]; simp; omega
    simp only [lowerChar, if_pos h, h1, h2]
  · simp only [lowerChar, if_neg h]

theorem toLower_idem (s : Str) : toLower (toLower s) = toLower s := by
  simp only [toLower, List.map_map]
  exact List.map_congr_left (fun c _ => lowerChar_idem c)

theorem dropWhile_isWs_toLower (s : Str) :
    (toLower s).dropWhile isWs = toLower (s.dropWhile isWs) := by
  simp only [toLower, List.dropWhile_map]
  have hp : (isWs ∘ lowerChar) = isWs := funext isWs_lowerChar
  rw [hp]

theorem toLower_reverse (s : Str) : (toLower s).reverse = toLower s.reverse := by
  simp only [toLower, List.map_reverse]

theorem trim_toLower (s : Str) : trim (toLower s) = toLower (trim s) := by
  unfold trim
  rw [dropWhile_isWs_toLower, toLower_reverse, dropWhile_isWs_toLower, toLower_reverse]

theorem dropWhile_of_self_of_append {s t r : Str}
    (h : s.dropWhile isWs = s) (hpre : t ++ r = s) : t.dropWhile isWs = t := by
  cases t with
  | nil => rfl
  | cons a t' =>
    subst hpre
    rw [List.cons_append, List.dropWhile_cons] at h
    rw [List.dropWhile_cons]
    by_cases hws : isWs a
    · exfalso
      rw [if_pos hws] at h
      have hle : ((t' ++ r).dropWhile isWs).length ≤ (t' ++ r).length :=
        (List.dropWhile_suffix isWs).sublist.length_le
      have hlen := congrArg List.length h
      simp only [List.length_cons, List.length_append] at hlen hle
      omega
    · rw [if_neg hws]

/-- The right-trim of a left-trimmed string is still left-trimmed. -/
theorem dropWhile_trimRight {s : Str} (h : s.dropWhile isWs = s) :
    ((s.reverse.dropWhile isWs).reverse).dropWhile isWs = (s.reverse.dropWhile isWs).reverse := by
  have hsuf : s.reverse.dropWhile isWs <:+ s.reverse := List.dropWhile_suffix isWs
  have hpre : (s.reverse.dropWhile isWs).reverse <+: s := by
    rw [← List.reverse_suffix, List.reverse_reverse]
    exact hsuf
  obtain ⟨r, hr⟩ := hpre
  exact dropWhile_of_self_of_append h hr

theorem trim_idem (s : Str) : trim (trim s) = trim s := by
  unfold trim
  rw [dropWhile_trimRight (List.dropWhile_idempotent isWs s), List.reverse_reverse,
    List.dropWhile_idempotent]

/-- The result of trim-then-lowercase is itself trimmed and lowercased. -/
theorem normalized_fixed (s : Str) :
    trim (toLower (trim s)) = toLower (trim s) ∧
    toLower (toLower (trim s)) = toLower (trim s) := by
  constructor
  · rw [trim_toLower, trim_idem]
  · exact toLower_idem (trim s)

theorem splitOn_ne_nil (c : Nat) (s : Str) : splitOn c s ≠ [] := by
  induction s with
  | nil => simp [splitOn]
  | cons a t ih =>
    simp only [splitOn]
    split
    · simp
    · obtain ⟨h, tl, hht⟩ := List.exists_cons_of_ne_nil ih
      simp [hht]

theorem splitOn_append (c : Nat) (x y : Str) :
    splitOn c (x ++ c :: y) = splitOn c x ++ splitOn c y := by
  induction x with
  | nil => simp [splitOn]
  | cons a t ih =>
    rw [List.cons_append]
    by_cases hac : a = c
    · simp only [splitOn, if_pos hac, List.append_eq, ih, List.cons_append]
    · obtain ⟨h, tl, hht⟩ := List.exists_cons_of_ne_nil (splitOn_ne_nil c t)
      simp only [splitOn, if_neg hac, List.append_eq, ih, hht, List.cons_append]

theorem splitOn_of_not_mem {c : Nat} {s : Str} (h : c ∉ s) : splitOn c s = [s] := by
  induction s with
  | nil => rfl
  | cons a t ih =>
    simp only [List.mem_cons, not_or] at h
    simp only [splitOn, ih h.2]
    rw [if_neg (fun hac => h.1 hac.symm)]

/-- Everything `deserialize_email_addresses_separated_by_newlines` returns
is nonempty, trimmed, lowercased, and the trim-then-lowercase of one of
the newline-separated lines of the blob. -/
theorem mem_deserialize {b s : Str}
    (h : s ∈ deserialize_email_addresses_separated_by_newlines b) :
    s ≠ [] ∧ trim s = s ∧ toLower s = s ∧
      ∃ line ∈ splitOn 10 b, s = toLower (trim line) := by
  unfold deserialize_email_addresses_separated_by_newlines at h
  obtain ⟨hmem, hne⟩ := List.mem_filter.mp h
  obtain ⟨line, hline, hs⟩ := List.mem_map.mp hmem
  subst hs
  refine ⟨by simpa using hne, (normalized_fixed line).1, (normalized_fixed line).2, line, hline, rfl⟩

/-! ### Lemmas about the exact map, pattern compilation and `from_file` -/

theorem exactLookup_eq_none_iff {l : List (Str × Str)} {a : Str} :
    exactLookup l a = none ↔ ∀ pr ∈ l, pr.1 ≠ a := by
  unfold exactLookup
  simp [List.find?_eq_none]

theorem mem_of_exactLookup_eq_some {l : List (Str × Str)} {a n : Str}
    (h : exactLookup l a = some n) : (a, n) ∈ l := by
  unfold exactLookup at h
  obtain ⟨pr, hfind, hsnd⟩ := Option.map_eq_some'.mp h
  have hkey : pr.1 = a := by simpa using List.find?_some hfind
  have hmem : pr ∈ l := List.mem_reverse.mp (List.mem_of_find?_eq_some hfind)
  have : pr = (a, n) := by
    cases pr
    simp_all
  rwa [this] at hmem

theorem exactLookup_isSome_of_mem {l : List (Str × Str)} {a n : Str}
    (h : (a, n) ∈ l) : ∃ n', exactLookup l a = some n' := by
  unfold exactLookup
  have : (l.reverse.find? (fun pr => pr.1 = a)).isSome := by
    rw [List.find?_isSome]
    exact ⟨(a, n), List.mem_reverse.mpr h, by simp⟩
  obtain ⟨pr, hpr⟩ := Option.isSome_iff_exists.mp this
  exact ⟨pr.2, by rw [hpr]; rfl⟩

/-- Last write wins: the value of the last pair carrying the key. -/
theorem exactLookup_last {l1 l2 : List (Str × Str)} {x n : Str}
    (h : ∀ pr ∈ l2, pr.1 ≠ x) :
    exactLookup (l1 ++ (x, n) :: l2) x = some n := by
  unfold exactLookup
  rw [List.reverse_append, List.reverse_cons, List.append_assoc,
    List.find?_append]
  have h2 : l2.reverse.find? (fun pr => pr.1 = x) = none := by
    rw [List.find?_eq_none]
    intro pr hpr
    simpa using h pr (List.mem_reverse.mp hpr)
  rw [h2]
  simp

theorem collectPatterns_of_all_valid {E : RegexEngine} {l : List (Str × Str)}
    (h : ∀ pr ∈ l, E.valid pr.1) : collectPatterns E l = .ok l := by
  induction l with
  | nil => rfl
  | cons pr rest ih =>
    simp only [collectPatterns, if_pos (h pr (List.mem_cons_self pr rest)),
      ih (fun q hq => h q (List.mem_cons_of_mem pr hq))]

theorem collectPatterns_ok {E : RegexEngine} {l r : List (Str × Str)}
    (h : collectPatterns E l = .ok r) : r = l ∧ ∀ pr ∈ l, E.valid pr.1 := by
  induction l generalizing r with
  | nil =>
    simp only [collectPatterns] at h
    injection h with h
    simp [h.symm]
  | cons pr rest ih =>
    simp only [collectPatterns] at h
    by_cases hv : E.valid pr.1
    · rw [if_pos hv] at h
      cases hrec : collectPatterns E rest with
      | ok l' =>
        rw [hrec] at h
        injection h with h
        obtain ⟨he, hall⟩ := ih hrec
        subst he
        exact ⟨h.symm, by
          intro q hq
          rcases List.mem_cons.mp hq with hq | hq
          · rw [hq]; exact hv
          · exact hall q hq⟩
      | error e =>
        rw [hrec] at h
        cases h
    · rw [if_neg hv] at h
      cases h

theorem collectPatterns_error_of_invalid {E : RegexEngine} {l : List (Str × Str)}
    (h : ∃ pr ∈ l, ¬ E.valid pr.1) :
    ∃ p, (∃ n, (p, n) ∈ l) ∧ ¬ E.valid p ∧
      collectPatterns E l = .error (regexErrMsg p) := by
  induction l with
  | nil => simp at h
  | cons pr rest ih =>
    by_cases hv : E.valid pr.1
    · have hrest : ∃ q ∈ rest, ¬ E.valid q.1 := by
        obtain ⟨q, hq, hqv⟩ := h
        rcases List.mem_cons.mp hq with hq | hq
        · exact absurd hv (hq ▸ hqv)
        · exact ⟨q, hq, hqv⟩
      obtain ⟨p, ⟨n, hmem⟩, hpv, herr⟩ := ih hrest
      refine ⟨p, ⟨n, List.mem_cons_of_mem pr hmem⟩, hpv, ?_⟩
      simp only [collectPatterns, if_pos hv, herr]
    · exact ⟨pr.1, ⟨pr.2, List.mem_cons_self pr rest⟩, hv, by
        simp only [collectPatterns, if_neg hv]⟩

/-- The map `from_file` builds: it succeeds exactly when every pattern source compiles, and
the map it builds is the flattening of the configuration in iteration
order: the exact pairs and pattern pairs of each mailbox, mailboxes in
`HashMap` iteration order, rules within one mailbox in declaration order. -/
theorem from_file_ok_iff {E : RegexEngine} {cfg : List (Str × ConfigMailbox)}
    {m : AddressMap} :
    from_file E cfg = .ok m ↔
      (∀ pr ∈ patternPairs cfg, E.valid pr.1) ∧
        m = ⟨exactPairs cfg, patternPairs cfg⟩ := by
  constructor
  · intro h
    unfold from_file at h
    cases hc : collectPatterns E (patternPairs cfg) with
    | ok pats =>
      rw [hc] at h
      injection h with h
      obtain ⟨he, hall⟩ := collectPatterns_ok hc
      subst he
      exact ⟨hall, h.symm⟩
    | error e =>
      rw [hc] at h
      cases h
  · rintro ⟨hall, hm⟩
    unfold from_file
    rw [collectPatterns_of_all_valid hall, hm]

/-! ### Lemmas about resolution -/

theorem exactLookup_perm {l1 l2 : List (Str × Str)} {a : Str}
    (hperm : l1.Perm l2)
    (huniq : ∀ n n', (a, n) ∈ l1 → (a, n') ∈ l1 → n = n') :
    exactLookup l1 a = exactLookup l2 a := by
  cases h1 : exactLookup l1 a with
  | some n =>
    have hm : (a, n) ∈ l2 := hperm.mem_iff.mp (mem_of_exactLookup_eq_some h1)
    obtain ⟨n', h2⟩ := exactLookup_isSome_of_mem hm
    have hmem1 : (a, n') ∈ l1 := hperm.mem_iff.mpr (mem_of_exactLookup_eq_some h2)
    rw [h2, huniq n n' (mem_of_exactLookup_eq_some h1) hmem1]
  | none =>
    rw [exactLookup_eq_none_iff] at h1
    have h2 : exactLookup l2 a = none := by
      rw [exactLookup_eq_none_iff]
      intro pr hpr
      exact h1 pr (hperm.mem_iff.mpr hpr)
    rw [h2]

theorem firstMatch_eq_some {E : RegexEngine} {pats : List (Str × Str)} {a n : Str}
    (h : (pats.find? (fun pr => E.isMatch pr.1 a)).map (fun pr => pr.2) = some n) :
    ∃ p, (p, n) ∈ pats ∧ E.isMatch p a := by
  obtain ⟨pr, hfind, hsnd⟩ := Option.map_eq_some'.mp h
  have hmatch : E.isMatch pr.1 a := by simpa using List.find?_some hfind
  exact ⟨pr.1, by
    have : pr = (pr.1, n) := by cases pr; simp_all
    exact this ▸ List.mem_of_find?_eq_some hfind, hmatch⟩

theorem firstMatch_isSome {E : RegexEngine} {pats : List (Str × Str)} {a p n : Str}
    (hmem : (p, n) ∈ pats) (hm : E.isMatch p a) :
    ∃ n', (pats.find? (fun pr => E.isMatch pr.1 a)).map (fun pr => pr.2) = some n' := by
  have : (pats.find? (fun pr => E.isMatch pr.1 a)).isSome := by
    rw [List.find?_isSome]
    exact ⟨(p, n), hmem, by simpa using hm⟩
  obtain ⟨pr, hpr⟩ := Option.isSome_iff_exists.mp this
  exact ⟨pr.2, by rw [hpr]; rfl⟩

theorem firstMatch_perm {E : RegexEngine} {l1 l2 : List (Str × Str)} {a : Str}
    (hperm : l1.Perm l2)
    (huniq : ∀ p n p' n', (p, n) ∈ l1 → (p', n') ∈ l1 →
      E.isMatch p a → E.isMatch p' a → n = n') :
    (l1.find? (fun pr => E.isMatch pr.1 a)).map (fun pr => pr.2) =
      (l2.find? (fun pr => E.isMatch pr.1 a)).map (fun pr => pr.2) := by
  cases h1 : (l1.find? (fun pr => E.isMatch pr.1 a)).map (fun pr => pr.2) with
  | some n =>
    obtain ⟨p, hmem, hm⟩ := firstMatch_eq_some h1
    obtain ⟨n', h2⟩ := firstMatch_isSome (hperm.mem_iff.mp hmem) hm
    obtain ⟨p', hmem', hm'⟩ := firstMatch_eq_some h2
    rw [h2, huniq p n p' n' hmem (hperm.mem_iff.mpr hmem') hm hm']
  | none =>
    rw [Option.map_eq_none'] at h1
    rw [List.find?_eq_none] at h1
    have h2 : l2.find? (fun pr => E.isMatch pr.1 a) = none := by
      rw [List.find?_eq_none]
      intro pr hpr
      exact h1 pr (hperm.mem_iff.mpr hpr)
    rw [h2]
    rfl

/-! ### Claim theorems -/

/-- C1: whenever the queried address is a key of the exact map,
`mailbox_name_for_address` returns that key's mailbox name, and the
pattern list is never consulted — the same name comes back whatever the
pattern list and whatever the matching engine. -/
theorem exact_match_takes_precedence (E : RegexEngine) (m : AddressMap) (a n : Str)
    (h : exactLookup m.exact_address_to_mailbox_name a = some n) :
    mailbox_name_for_address E m a = some n ∧
      ∀ (E' : RegexEngine) (pats : List (Str × Str)),
        mailbox_name_for_address E'
          ⟨m.exact_address_to_mailbox_name, pats⟩ a = some n := by
  constructor
  · simp only [mailbox_name_for_address, h]
  · intro E' pats
    simp only [mailbox_name_for_address, h]

/-- C1 witness: an exact entry for `a@b` under "Work" wins although the
pattern `a@` (owned by "Lists") also matches `a@b`. -/
theorem exact_match_takes_precedence_witness :
    mailbox_name_for_address toyEngine
      ⟨[(chars "a@b", chars "Work")], [(chars "a@", chars "Lists")]⟩
      (chars "a@b") = some (chars "Work") ∧
    toyEngine.isMatch (chars "a@") (chars "a@b") = true :=
  ⟨(exact_match_takes_precedence toyEngine
      ⟨[(chars "a@b", chars "Work")], [(chars "a@", chars "Lists")]⟩
      (chars "a@b") (chars "Work") (by decide)).1, by decide⟩

/-- C8: resolution is total by type (`Option`, never an error), and it
returns `none` exactly when the address is matched by no exact rule and by
no pattern. -/
theorem resolution_total_none_iff (E : RegexEngine) (m : AddressMap) (a : Str) :
    mailbox_name_for_address E m a = none ↔
      (exactLookup m.exact_address_to_mailbox_name a = none ∧
        ∀ pr ∈ m.address_regex_to_mailbox_name, ¬ E.isMatch pr.1 a) := by
  unfold mailbox_name_for_address
  cases h : exactLookup m.exact_address_to_mailbox_name a with
  | some n => simp [h]
  | none => simp [h, Option.map_eq_none', List.find?_eq_none]

/-- C2 counterexample: the code builds the pattern list in `HashMap`
iteration order, not declaration order.  With mailboxes declared `[A, B]`
but iterated `[B, A]` (a legal `HashMap` iteration order), the compiled
pattern sequence is reversed, and `a@example.com` — matched by both
patterns — resolves to "B" while the spec's declaration-order semantics
gives "A". -/
theorem pattern_declaration_order_counterexample :
    List.Perm [mbB, mbA] [mbA, mbB] ∧
    from_file toyEngine [mbB, mbA] =
      .ok ⟨[], [(chars "@example.com", chars "B"), (chars "a@", chars "A")]⟩ ∧
    [(chars "@example.com", chars "B"), (chars "a@", chars "A")] ≠
      patternPairs [mbA, mbB] ∧
    mailbox_name_for_address toyEngine
      ⟨[], [(chars "@example.com", chars "B"), (chars "a@", chars "A")]⟩
      (chars "a@example.com") = some (chars "B") ∧
    specResolveDeclOrder toyEngine [mbA, mbB] (chars "a@example.com") =
      some (chars "A") ∧
    chars "B" ≠ chars "A" := by decide

/-- C2 (amended): the compiled pattern sequence is the concatenation of the
per-mailbox pattern lists — each mailbox's patterns in declaration order —
with mailboxes in `HashMap` iteration order (an unspecified permutation of
declaration order, not declaration order itself); an address with no exact
match resolves to the mailbox of the first matching pattern in that
iteration order. -/
theorem pattern_first_match_iteration_order (E : RegexEngine)
    (cfg : List (Str × ConfigMailbox)) (m : AddressMap)
    (hok : from_file E cfg = .ok m) :
    m.address_regex_to_mailbox_name = patternPairs cfg ∧
      ∀ (a : Str) (l1 l2 : List (Str × Str)) (pr : Str × Str),
        exactLookup m.exact_address_to_mailbox_name a = none →
        patternPairs cfg = l1 ++ pr :: l2 →
        (∀ q ∈ l1, ¬ E.isMatch q.1 a) →
        E.isMatch pr.1 a →
        mailbox_name_for_address E m a = some pr.2 := by
  obtain ⟨hall, hm⟩ := from_file_ok_iff.mp hok
  subst hm
  refine ⟨rfl, ?_⟩
  intro a l1 l2 pr hnone hsplit hno hmatch
  simp only [mailbox_name_for_address] at hnone ⊢
  rw [hnone, hsplit, List.find?_append]
  have h1 : l1.find? (fun q => E.isMatch q.1 a) = none := by
    rw [List.find?_eq_none]
    intro q hq
    simpa using hno q hq
  rw [h1, List.find?_cons_of_pos _ (by simpa using hmatch)]
  rfl

/-- C2 witness: with iteration order `[A, B]` and the address matched by
both patterns, the first pattern in that order ("A"'s) wins. -/
theorem pattern_first_match_iteration_order_witness :
    mailbox_name_for_address toyEngine
      ⟨exactPairs [mbA, mbB], patternPairs [mbA, mbB]⟩
      (chars "a@example.com") = some (chars "A") :=
  (pattern_first_match_iteration_order toyEngine [mbA, mbB]
      ⟨exactPairs [mbA, mbB], patternPairs [mbA, mbB]⟩ (by decide)).2
    (chars "a@example.com") [] [(chars "@example.com", chars "B")]
    (chars "a@", chars "A") (by decide) (by decide) (by decide) (by decide)

/-- C3 counterexample: two runs over the same configuration may iterate the
`HashMap` in different orders (the seed is per-process), and then
resolution differs: with both patterns matching `a@example.com`, iteration
order `[A, B]` resolves to "A" while `[B, A]` resolves to "B". -/
theorem compile_twice_determinism_counterexample :
    List.Perm [mbA, mbB] [mbB, mbA] ∧
    from_file toyEngine [mbA, mbB] =
      .ok ⟨[], [(chars "a@", chars "A"), (chars "@example.com", chars "B")]⟩ ∧
    from_file toyEngine [mbB, mbA] =
      .ok ⟨[], [(chars "@example.com", chars "B"), (chars "a@", chars "A")]⟩ ∧
    mailbox_name_for_address toyEngine
      ⟨[], [(chars "a@", chars "A"), (chars "@example.com", chars "B")]⟩
      (chars "a@example.com") = some (chars "A") ∧
    mailbox_name_for_address toyEngine
      ⟨[], [(chars "@example.com", chars "B"), (chars "a@", chars "A")]⟩
      (chars "a@example.com") = some (chars "B") ∧
    (some (chars "A") : Option Str) ≠ some (chars "B") := by decide

/-- C3 (amended): compile-then-resolve is a pure function of the iteration
order, so results can differ between runs only through that order; they
agree across any two iteration orders of the same configuration whenever
the query address is unambiguous — all exact entries for it name one
mailbox and all patterns matching it name one mailbox. -/
theorem resolve_agrees_of_perm_of_unambiguous (E : RegexEngine)
    (cfg1 cfg2 : List (Str × ConfigMailbox)) (m1 m2 : AddressMap) (a : Str)
    (hperm : cfg1.Perm cfg2)
    (h1 : from_file E cfg1 = .ok m1) (h2 : from_file E cfg2 = .ok m2)
    (hexu : ∀ n n', (a, n) ∈ exactPairs cfg1 → (a, n') ∈ exactPairs cfg1 → n = n')
    (hpatu : ∀ p n p' n', (p, n) ∈ patternPairs cfg1 → (p', n') ∈ patternPairs cfg1 →
      E.isMatch p a → E.isMatch p' a → n = n') :
    mailbox_name_for_address E m1 a = mailbox_name_for_address E m2 a := by
  obtain ⟨_, hm1⟩ := from_file_ok_iff.mp h1
  obtain ⟨_, hm2⟩ := from_file_ok_iff.mp h2
  subst hm1
  subst hm2
  have hexp : (exactPairs cfg1).Perm (exactPairs cfg2) := hperm.flatMap_right _
  have hpp : (patternPairs cfg1).Perm (patternPairs cfg2) := hperm.flatMap_right _
  have hl : exactLookup (exactPairs cfg1) a = exactLookup (exactPairs cfg2) a :=
    exactLookup_perm hexp hexu
  have hfm := firstMatch_perm (E := E) (a := a) hpp hpatu
  simp only [mailbox_name_for_address]
  rw [← hl, hfm]

/-- C3 witness: iteration orders `[A, B]` and `[B, A]` agree on
`zzz@example.com`, which only "B"'s pattern matches. -/
theorem resolve_agrees_of_perm_witness :
    mailbox_name_for_address toyEngine
      ⟨exactPairs [mbA, mbB], patternPairs [mbA, mbB]⟩ (chars "zzz@example.com") =
    mailbox_name_for_address toyEngine
      ⟨exactPairs [mbB, mbA], patternPairs [mbB, mbA]⟩ (chars "zzz@example.com") :=
  resolve_agrees_of_perm_of_unambiguous toyEngine [mbA, mbB] [mbB, mbA]
    ⟨exactPairs [mbA, mbB], patternPairs [mbA, mbB]⟩
    ⟨exactPairs [mbB, mbA], patternPairs [mbB, mbA]⟩
    (chars "zzz@example.com") (by decide) (by decide) (by decide)
    (by
      intro n n' hn hn'
      simp [exactPairs, mbA, mbB] at hn)
    (by
      intro p n p' n' hp hp' hm hm'
      simp only [patternPairs, mbA, mbB] at hp hp'
      rcases List.mem_cons.mp hp with h | h
      · exfalso
        rw [show p = chars "a@" from congrArg Prod.fst h] at hm
        exact absurd hm (by decide)
      · rcases List.mem_cons.mp hp' with h' | h'
        · exfalso
          rw [show p' = chars "a@" from congrArg Prod.fst h'] at hm'
          exact absurd hm' (by decide)
        · rw [show n = chars "B" from congrArg Prod.snd (List.mem_singleton.mp h),
            show n' = chars "B" from congrArg Prod.snd (List.mem_singleton.mp h')])

/-- C4 counterexample: with `x@y` declared under "Work" and then under
"Personal" (declaration order `[Work, Personal]`), a legal `HashMap`
iteration order `[Personal, Work]` inserts "Work" last, so the exact map
assigns the address to "Work" — not to the later-declared "Personal". -/
theorem duplicate_exact_declaration_order_counterexample :
    List.Perm [mbPersonal, mbWork] [mbWork, mbPersonal] ∧
    from_file toyEngine [mbPersonal, mbWork] =
      .ok ⟨[(chars "x@y", chars "Personal"), (chars "x@y", chars "Work")], []⟩ ∧
    mailbox_name_for_address toyEngine
      ⟨[(chars "x@y", chars "Personal"), (chars "x@y", chars "Work")], []⟩
      (chars "x@y") = some (chars "Work") ∧
    chars "Work" ≠ chars "Personal" := by decide

/-- C4 (amended): a duplicated exact address is silently overwritten — the
load still succeeds — and the compiled map assigns it to the mailbox whose
pair is inserted last in `HashMap` iteration order, which need not be the
mailbox declared later in the configuration. -/
theorem duplicate_exact_last_insertion_wins (E : RegexEngine)
    (cfg : List (Str × ConfigMailbox)) (m : AddressMap)
    (l1 l2 : List (Str × Str)) (x n : Str)
    (hok : from_file E cfg = .ok m)
    (hsplit : exactPairs cfg = l1 ++ (x, n) :: l2)
    (hlast : ∀ pr ∈ l2, pr.1 ≠ x) :
    mailbox_name_for_address E m x = some n := by
  obtain ⟨_, hm⟩ := from_file_ok_iff.mp hok
  subst hm
  simp only [mailbox_name_for_address]
  rw [hsplit, exactLookup_last hlast]

/-- C4 witness: iteration order `[Work, Personal]` — "Personal"'s pair is
inserted last and owns `x@y`, silently overwriting "Work"'s earlier
insertion of the same key. -/
theorem duplicate_exact_last_insertion_wins_witness :
    mailbox_name_for_address toyEngine
      ⟨exactPairs [mbWork, mbPersonal], patternPairs [mbWork, mbPersonal]⟩
      (chars "x@y") = some (chars "Personal") :=
  duplicate_exact_last_insertion_wins toyEngine [mbWork, mbPersonal]
    ⟨exactPairs [mbWork, mbPersonal], patternPairs [mbWork, mbPersonal]⟩
    [(chars "x@y", chars "Work")] [] (chars "x@y") (chars "Personal")
    (by decide) (by decide) (by decide)

/-- C5: every address key in the exact map and every pattern source in the
pattern list of a compiled AddressMap is nonempty, trimmed and lowercased,
and arises as the trim-then-lowercase of one newline-separated line of the
corresponding raw blob — so blank lines and surrounding whitespace never
produce a rule. -/
theorem address_map_entries_normalized (E : RegexEngine)
    (raw : List (Str × RawMailbox)) (m : AddressMap)
    (hok : from_file E (raw.map (fun e => (e.1, parseMailbox e.2))) = .ok m) :
    (∀ pr ∈ m.exact_address_to_mailbox_name,
        pr.1 ≠ [] ∧ trim pr.1 = pr.1 ∧ toLower pr.1 = pr.1 ∧
          ∃ e ∈ raw, ∃ line ∈ splitOn 10 e.2.addressesBlob,
            pr.1 = toLower (trim line)) ∧
    (∀ pr ∈ m.address_regex_to_mailbox_name,
        pr.1 ≠ [] ∧ trim pr.1 = pr.1 ∧ toLower pr.1 = pr.1 ∧
          ∃ e ∈ raw, ∃ line ∈ splitOn 10 e.2.reAddressesBlob,
            pr.1 = toLower (trim line)) := by
  obtain ⟨_, hm⟩ := from_file_ok_iff.mp hok
  subst hm
  constructor
  · intro pr hpr
    simp only [exactPairs, List.mem_flatMap, List.mem_map] at hpr
    obtain ⟨entry, ⟨⟨e, he, hentry⟩, addr, haddr, hpr⟩⟩ := hpr
    subst hpr
    obtain ⟨hne, htr, hlo, line, hline, heq⟩ := mem_deserialize (by
      rw [← hentry] at haddr
      exact haddr)
    exact ⟨hne, htr, hlo, e, he, line, hline, heq⟩
  · intro pr hpr
    simp only [patternPairs, List.mem_flatMap, List.mem_map] at hpr
    obtain ⟨entry, ⟨⟨e, he, hentry⟩, p, hp, hpr⟩⟩ := hpr
    subst hpr
    obtain ⟨hne, htr, hlo, line, hline, heq⟩ := mem_deserialize (by
      rw [← hentry] at hp
      exact hp)
    exact ⟨hne, htr, hlo, e, he, line, hline, heq⟩

/-- C5 witness: the untidy blob `"  Boss@Co.com \n\n"` yields exactly the
normalized key `boss@co.com`, which is nonempty, trimmed and lowercased. -/
theorem address_map_entries_normalized_witness :
    chars "boss@co.com" ≠ [] ∧
    trim (chars "boss@co.com") = chars "boss@co.com" ∧
    toLower (chars "boss@co.com") = chars "boss@co.com" :=
  have h := (address_map_entries_normalized toyEngine [rawWork]
    ⟨[(chars "boss@co.com", chars "Work")], [(chars "^x@", chars "Work")]⟩
    (by decide)).1 (chars "boss@co.com", chars "Work") (by decide)
  ⟨h.1, h.2.1, h.2.2.1⟩

theorem deserialize_single {u : Str} (h1 : trim u = u) (h2 : u ≠ [])
    (h3 : (10 : Nat) ∉ u) :
    deserialize_email_addresses_separated_by_newlines u = [toLower u] := by
  unfold deserialize_email_addresses_separated_by_newlines
  rw [splitOn_of_not_mem h3, List.map_cons, List.map_nil, h1, List.filter_cons]
  have hne : (toLower u).isEmpty = false := by
    rw [List.isEmpty_eq_false_iff_exists_mem]
    obtain ⟨a, t, ht⟩ := List.exists_cons_of_ne_nil h2
    exact ⟨lowerChar a, by rw [ht]; exact List.mem_cons_self _ _⟩
  rw [hne]
  rfl

/-- C6 counterexample: the code lowercases the recipient but does not trim
it, while configuration entries are trimmed; with `" Alice@Example.com"`
in the environment the normalized query keeps its leading space, differs
from lowercase-of-trim, and fails to match the configured entry. -/
theorem recipient_not_trimmed_counterexample :
    get_normalized_original_recipient_email_address
      (some (chars " Alice@Example.com")) = .ok (chars " alice@example.com") ∧
    chars " alice@example.com" ≠ toLower (trim (chars " Alice@Example.com")) ∧
    deserialize_email_addresses_separated_by_newlines
      (chars " Alice@Example.com \n") = [chars "alice@example.com"] ∧
    mailbox_name_for_address toyEngine
      ⟨[(chars "alice@example.com", chars "Work")], []⟩
      (chars " alice@example.com") = none := by decide

/-- C6 (amended): the query address is lowercased — but not trimmed —
before the lookup; since configuration entries are lowercased too,
comparisons are case-insensitive: a configured entry and a query that
differ only in letter case (the query carrying no surrounding whitespace)
resolve to the entry's mailbox. -/
theorem recipient_lowercased_case_insensitive (E : RegexEngine) (v u n : Str)
    (h1 : trim u = u) (h2 : u ≠ []) (h3 : (10 : Nat) ∉ u)
    (h4 : toLower u = toLower v) :
    get_normalized_original_recipient_email_address (some v) = .ok (toLower v) ∧
      ∃ m, from_file E [(n, parseMailbox ⟨u, []⟩)] = .ok m ∧
        mailbox_name_for_address E m (toLower v) = some n := by
  have hdes : parseMailbox ⟨u, []⟩ = ⟨[toLower u], []⟩ := by
    unfold parseMailbox
    rw [deserialize_single h1 h2 h3]
    rfl
  refine ⟨rfl, ⟨⟨[(toLower u, n)], []⟩, ?_, ?_⟩⟩
  · rw [hdes, from_file_ok_iff]
    exact ⟨by intro pr hpr; simp [patternPairs] at hpr, rfl⟩
  · simp only [mailbox_name_for_address]
    have hl : exactLookup [(toLower u, n)] (toLower v) = some n := by
      unfold exactLookup
      simp [h4]
    rw [hl]

/-- C6 witness: configuring `Alice@Example.com` and querying
`alice@EXAMPLE.COM` resolve to the same mailbox "Work". -/
theorem recipient_lowercased_case_insensitive_witness :
    get_normalized_original_recipient_email_address
        (some (chars "alice@EXAMPLE.COM")) =
      .ok (toLower (chars "alice@EXAMPLE.COM")) ∧
    ∃ m, from_file toyEngine
        [(chars "Work", parseMailbox ⟨chars "Alice@Example.com", []⟩)] = .ok m ∧
      mailbox_name_for_address toyEngine m (toLower (chars "alice@EXAMPLE.COM")) =
        some (chars "Work") :=
  recipient_lowercased_case_insensitive toyEngine (chars "alice@EXAMPLE.COM")
    (chars "Alice@Example.com") (chars "Work")
    (by decide) (by decide) (by decide) (by decide)

theorem mem_patternPairs {cfg : List (Str × ConfigMailbox)} {n : Str}
    {mb : ConfigMailbox} {p : Str}
    (hmem : (n, mb) ∈ cfg) (hp : p ∈ mb.re_addresses) : (p, n) ∈ patternPairs cfg := by
  simp only [patternPairs, List.mem_flatMap]
  exact ⟨(n, mb), hmem, List.mem_map.mpr ⟨p, hp, rfl⟩⟩

theorem isPrefixOf_self (p : Str) : List.isPrefixOf p p = true := by
  induction p with
  | nil => rfl
  | cons a t ih => simp [List.isPrefixOf, ih]

theorem isSubstr_append_self (x p : Str) : isSubstr p (x ++ p) = true := by
  unfold isSubstr
  rw [List.any_eq_true]
  refine ⟨x.length, List.mem_range.mpr ?_, ?_⟩
  · rw [List.length_append]
    omega
  · rw [List.drop_left]
    exact isPrefixOf_self p

/-- C7 counterexample: the error produced for the invalid pattern `(`
declared under mailbox "Work" contains the pattern text but not the
mailbox name — the claim that the error identifies both is false. -/
theorem compile_error_lacks_mailbox_name_counterexample :
    from_file toyEngine [mbBadPattern] = .error (regexErrMsg (chars "(")) ∧
    isSubstr (chars "(") (regexErrMsg (chars "(")) = true ∧
    isSubstr (chars "Work") (regexErrMsg (chars "(")) = false := by decide

/-- C7 (amended): if any declared pattern fails to compile, the entire
load fails with an error carrying the text of a failing pattern (though
not the owning mailbox name), and no AddressMap is produced. -/
theorem pattern_compile_failure_aborts_load (E : RegexEngine)
    (cfg : List (Str × ConfigMailbox)) (n : Str) (mb : ConfigMailbox) (p : Str)
    (hmem : (n, mb) ∈ cfg) (hp : p ∈ mb.re_addresses) (hinv : ¬ E.valid p) :
    ∃ bad, (∃ owner, (bad, owner) ∈ patternPairs cfg) ∧ ¬ E.valid bad ∧
      from_file E cfg = .error (regexErrMsg bad) ∧
      isSubstr bad (regexErrMsg bad) = true ∧
      ∀ m, from_file E cfg ≠ .ok m := by
  obtain ⟨bad, hbmem, hbv, herr⟩ :=
    collectPatterns_error_of_invalid ⟨(p, n), mem_patternPairs hmem hp, hinv⟩
  refine ⟨bad, hbmem, hbv, ?_,
    isSubstr_append_self (chars "Error parsing regular expression ") bad, ?_⟩
  · unfold from_file
    rw [herr]
  · intro m hm
    unfold from_file at hm
    rw [herr] at hm
    cases hm

/-- C7 witness: the configuration holding only `mbBadPattern` fails to
load with the pattern text in the error and yields no AddressMap. -/
theorem pattern_compile_failure_aborts_load_witness :
    ∃ bad, (∃ owner, (bad, owner) ∈ patternPairs [mbBadPattern]) ∧
      ¬ toyEngine.valid bad ∧
      from_file toyEngine [mbBadPattern] = .error (regexErrMsg bad) ∧
      isSubstr bad (regexErrMsg bad) = true ∧
      ∀ m, from_file toyEngine [mbBadPattern] ≠ .ok m :=
  pattern_compile_failure_aborts_load toyEngine [mbBadPattern] (chars "Work")
    mbBadPattern.2 (chars "(") (by decide) (by decide) (by decide)

/-- C9: the delivery directory is the root with the single formatted
segment `.` ++ name appended verbatim — no sanitization — so a mailbox
name containing a path separator contributes extra path components beyond
the intended one-level sub-mailbox. -/
theorem delivery_path_appends_name_verbatim (root u v : Str)
    (hu : (47 : Nat) ∉ u) (hv : (47 : Nat) ∉ v) (hvne : v ≠ []) :
    deliveryDir root (some (u ++ 47 :: v)) = root ++ 47 :: 46 :: (u ++ 47 :: v) ∧
      pathComponents (deliveryDir root (some (u ++ 47 :: v))) =
        pathComponents root ++ [46 :: u, v] := by
  refine ⟨rfl, ?_⟩
  show pathComponents (root ++ 47 :: 46 :: (u ++ 47 :: v)) = _
  have h1 : (46 : Nat) :: (u ++ 47 :: v) = (46 :: u) ++ 47 :: v := rfl
  rw [h1]
  unfold pathComponents
  rw [splitOn_append, splitOn_append,
    splitOn_of_not_mem (show (47 : Nat) ∉ 46 :: u by
      intro hc
      rcases List.mem_cons.mp hc with hc | hc
      · cases hc
      · exact hu hc),
    splitOn_of_not_mem hv, List.filter_append]
  congr 1
  have h2 : ((46 : Nat) :: u).isEmpty = false := rfl
  have h3 : v.isEmpty = false := by
    obtain ⟨a, t, ht⟩ := List.exists_cons_of_ne_nil hvne
    rw [ht]
    rfl
  simp [h2, h3]

/-- C9 witness: the mailbox name `a/b` turns the delivery path into
root/.a/b — two components, outside the intended one-level sub-mailbox. -/
theorem delivery_path_appends_name_verbatim_witness :
    deliveryDir (chars "/home/me/Maildir") (some (chars "a/b")) =
      chars "/home/me/Maildir" ++ 47 :: 46 :: chars "a/b" ∧
    pathComponents (deliveryDir (chars "/home/me/Maildir") (some (chars "a/b"))) =
      pathComponents (chars "/home/me/Maildir") ++ [chars ".a", chars "b"] := by
  have h := delivery_path_appends_name_verbatim (chars "/home/me/Maildir")
    (chars "a") (chars "b") (by decide) (by decide) (by decide)
  refine ⟨h.1, ?_⟩
  rw [show pathComponents (deliveryDir (chars "/home/me/Maildir") (some (chars "a/b"))) = pathComponents (chars "/home/me/Maildir") ++ [46 :: chars "a", chars "b"] from h.2]
  rfl

/-- C10: if loading the configuration fails (file reading, TOML decoding
or pattern compilation) or the recipient environment variable is absent,
`sort_message_from_stdin` returns an error with stdin never read and the
mailbox store never touched — no delivery and no partial delivery. -/
theorem early_error_no_read_no_delivery (E : RegexEngine)
    (homeEnv overrideMaildir recipEnv : Option Str) (dryRun : Bool)
    (cfgResult : Except Str (List (Str × ConfigMailbox)))
    (stdinBytes : List Nat) (storeOk : Bool)
    (h : (∃ e, cfgResult.bind (fun cfg => from_file E cfg) = .error e) ∨
      recipEnv = none) :
    (∃ e, (sort_message_from_stdin E homeEnv overrideMaildir recipEnv dryRun
        cfgResult stdinBytes storeOk).1 = .error e) ∧
      (sort_message_from_stdin E homeEnv overrideMaildir recipEnv dryRun
        cfgResult stdinBytes storeOk).2 = ⟨false, none⟩ := by
  unfold sort_message_from_stdin
  have hinner : ∀ root : Str,
      (∃ e, (match cfgResult with
        | .error e => ((.error e : Except Str Unit), (⟨false, none⟩ : Effects))
        | .ok cfg =>
          match from_file E cfg with
          | .error e => (.error e, ⟨false, none⟩)
          | .ok mappings =>
            match get_normalized_original_recipient_email_address recipEnv with
            | .error e => (.error e, ⟨false, none⟩)
            | .ok recipient =>
              let maildir := deliveryDir root (mailbox_name_for_address E mappings recipient)
              if stdinBytes.isEmpty then
                (.error (chars "Empty incoming message data"), ⟨true, none⟩)
              else if dryRun then (.ok (), ⟨true, none⟩)
              else if storeOk then (.ok (), ⟨true, some maildir⟩)
              else (.error (chars "Error saving message to Maildir"),
                ⟨true, some maildir⟩)).1 = .error e) ∧
      (match cfgResult with
        | .error e => ((.error e : Except Str Unit), (⟨false, none⟩ : Effects))
        | .ok cfg =>
          match from_file E cfg with
          | .error e => (.error e, ⟨false, none⟩)
          | .ok mappings =>
            match get_normalized_original_recipient_email_address recipEnv with
            | .error e => (.error e, ⟨false, none⟩)
            | .ok recipient =>
              let maildir := deliveryDir root (mailbox_name_for_address E mappings recipient)
              if stdinBytes.isEmpty then
                (.error (chars "Empty incoming message data"), ⟨true, none⟩)
              else if dryRun then (.ok (), ⟨true, none⟩)
              else if storeOk then (.ok (), ⟨true, some maildir⟩)
              else (.error (chars "Error saving message to Maildir"),
                ⟨true, some maildir⟩)).2 = ⟨false, none⟩ := by
    intro root
    cases cfgResult with
    | error e => exact ⟨⟨e, rfl⟩, rfl⟩
    | ok cfg =>
      cases hff : from_file E cfg with
      | error e => exact ⟨⟨e, by simp only [hff]⟩, by simp only [hff]⟩
      | ok mappings =>
        rcases h with ⟨e, he⟩ | hrec
        · rw [Except.bind, hff] at he
          cases he
        · subst hrec
          exact ⟨⟨chars "Missing environment variable for recipient email address",
            by simp only [hff]; rfl⟩, by simp only [hff]; rfl⟩
  cases overrideMaildir with
  | some p => exact hinner p
  | none =>
    cases homeEnv with
    | some hh => exact hinner (pushSegment hh (chars "Maildir"))
    | none => exact ⟨⟨chars "Unable to find HOME environment variable", rfl⟩, rfl⟩

/-- C10 witness: with a failing configuration load, the run errors with
stdin unread and nothing stored. -/
theorem early_error_no_read_no_delivery_witness :
    (∃ e, (sort_message_from_stdin toyEngine (some (chars "/home/me")) none
        (some (chars "a@b")) false (.error (chars "Error parsing config file"))
        (chars "message body") true).1 = .error e) ∧
      (sort_message_from_stdin toyEngine (some (chars "/home/me")) none
        (some (chars "a@b")) false (.error (chars "Error parsing config file"))
        (chars "message body") true).2 = ⟨false, none⟩ :=
  early_error_no_read_no_delivery toyEngine (some (chars "/home/me")) none
    (some (chars "a@b")) false (.error (chars "Error parsing config file"))
    (chars "message body") true
    (Or.inl ⟨chars "Error parsing config file", rfl⟩)

end Sortmail
